import Mathlib

/-!
# openshift-preflight: the `BasedOnUbi` check and the asset table

A shallow embedding of

* `certification/internal/policy/container/base_on_ubi.go`
  (`BasedOnUBICheck.Validate`, `getLabels`, `getOsReleaseContents`, `validate`),
* `certification/runtime/assets.go` (`images`, `imageList`, `Assets`, `ScorecardImage`),

followed by the properties proved about them.

Modelling conventions.

* A Go `string` is a Lean `String`; the operations of package `strings` are
  defined on the character list `String.data`.
* A Go `error` result is an `Option GoError`: `none` is `nil`.  A Go call
  returning `(T, error)` whose value is only used when the error is `nil` is an
  `Except GoError T`.
* A Go `map[string]string` is an association list, read with `List.lookup`
  (a `nil` map is the empty list).  The order in which `range` visits a map is
  not fixed by the language, so it is an explicit argument.
* The file system and `path/filepath` are an explicit environment `Env`.
* Calls to the logger do not influence any returned value and are left out.
-/

set_option autoImplicit false

namespace Preflight

/-! ## Package `strings` -/

/-- Go `strings.HasPrefix(s, prefix)`. -/
def stringsHasPrefix (s pre : String) : Bool :=
  pre.data.isPrefixOf s.data

/-- Search for `sub` at every position of `s`, left to right. -/
def containsAt (sub : List Char) : List Char → Bool
  | [] => sub.isPrefixOf []
  | c :: cs => sub.isPrefixOf (c :: cs) || containsAt sub cs

/-- Go `strings.Contains(s, substr)`. -/
def stringsContains (s substr : String) : Bool :=
  containsAt substr.data s.data

/-- Split a character list at every newline; the separators are dropped and
nothing else is.  The result always has at least one element. -/
def splitNewline : List Char → List (List Char)
  | [] => [[]]
  | c :: cs =>
    if c = '\n' then [] :: splitNewline cs
    else
      match splitNewline cs with
      | [] => [[c]]
      | l :: ls => (c :: l) :: ls

/-- Go `strings.Split(s, "\n")`. -/
def stringsSplitNewline (s : String) : List String :=
  (splitNewline s.data).map String.mk

/-! ## Data model -/

/-- A non-nil Go `error` value. -/
structure GoError where
  msg : String
deriving DecidableEq, Repr

/-- A Go `map[string]string`. -/
abbrev Labels := List (String × String)

/-- Go map index with the comma-ok form, `v, exists := m[key]`. -/
def mapLookup (m : Labels) (key : String) : Option String :=
  m.lookup key

/-- A `cranev1.Layer` as far as `Validate` looks at it: the results of
`Uncompressed()` (the stream is never inspected, so only success or failure is
kept) and of `MediaType()`. -/
structure Layer where
  uncompressed : Except GoError Unit
  mediaType : Except GoError String

/-- Go `cranev1.Config`, the part that is read. -/
structure Config where
  labels : Labels

/-- Go `cranev1.ConfigFile`, the part that is read. -/
structure ConfigFile where
  config : Config

/-- A `cranev1.Image`: the results of `ConfigFile()` and of `Layers()`. -/
structure Image where
  configFile : Except GoError ConfigFile
  layers : Except GoError (List Layer)

/-- Go `certification.ImageReference`, the fields that are read. -/
structure ImageReference where
  imageInfo : Image
  imageFSPath : String

/-- The operating-system environment of a run: `filepath.Join` and
`os.ReadFile` (file content as a string, or the error). -/
structure Env where
  filepathJoin : List String → String
  readFile : String → Except GoError String

/-! ## `base_on_ubi.go` -/

/-- The loop of `validate` over the os-release lines, carrying
`(hasRHELID, hasRHELName)`. -/
def scanOsRelease : List String → Bool × Bool → Bool × Bool
  | [], st => st
  | value :: rest, (hasRHELID, hasRHELName) =>
    if stringsHasPrefix value "ID=\"rhel\"" then
      scanOsRelease rest (true, hasRHELName)
    else if stringsHasPrefix value "NAME=\"Red Hat Enterprise Linux\"" then
      scanOsRelease rest (hasRHELID, true)
    else
      scanOsRelease rest (hasRHELID, hasRHELName)

/-- `BasedOnUBICheck.validate`. -/
def validate (labels : Labels) (osRelease : List String) : Bool × Option GoError :=
  let (hasRHELID, hasRHELName) := scanOsRelease osRelease (false, false)
  let hasUbiComponentLabel :=
    match mapLookup labels "com.redhat.component" with
    | some component => stringsContains component "ubi"
    | none => false
  if hasRHELID && hasRHELName && hasUbiComponentLabel then
    (true, none)
  else
    (false, none)

/-- `BasedOnUBICheck.getLabels`. -/
def getLabels (image : Image) : Except GoError Labels :=
  match image.configFile with
  | .error err => .error err
  | .ok configFile => .ok configFile.config.labels

/-- `BasedOnUBICheck.getOsReleaseContents`. -/
def getOsReleaseContents (env : Env) (path : String) : Except GoError (List String) :=
  match env.readFile (env.filepathJoin [path, "etc", "os-release"]) with
  | .error err => .error err
  | .ok osrelease => .ok (stringsSplitNewline osrelease)

/-- The loop of `Validate` over the layers: `some err` when a call fails (the
function returns `false, err` there), `none` when the loop runs to its end. -/
def readLayers : List Layer → Option GoError
  | [] => none
  | layer :: rest =>
    match layer.uncompressed with
    | .error err => some err
    | .ok _ =>
      match layer.mediaType with
      | .error err => some err
      | .ok _ => readLayers rest

/-- `BasedOnUBICheck.Validate`.  The statement `reader.Read()` discards what
it reads and the logger calls return nothing, so neither appears. -/
def Validate (env : Env) (imgRef : ImageReference) : Bool × Option GoError :=
  match getLabels imgRef.imageInfo with
  | .error err => (false, some err)
  | .ok labels =>
    match imgRef.imageInfo.layers with
    | .error err => (false, some err)
    | .ok layers =>
      match readLayers layers with
      | some err => (false, some err)
      | none =>
        match getOsReleaseContents env imgRef.imageFSPath with
        | .error err => (false, some err)
        | .ok osRelease => validate labels osRelease

/-! ## `assets.go` -/

/-- The table `images`, from purpose to image reference. -/
def images : List (String × String) :=
  [("scorecard",
    "quay.io/operator-framework/scorecard-test@sha256:d655333b0246f75ac9e5f6e67a2c04c506ae77b0c8b0c5eb70e6ddc8c2123e55")]

/-- The body of the loop of `imageList`, on the pair `(imageList, i)`:
`imageList[i] = image; i++`. -/
def imageListStep (st : List String × Nat) (entry : String × String) : List String × Nat :=
  (st.1.set st.2 entry.2, st.2 + 1)

/-- `imageList`: a slice of `len(images)` empty strings, filled while ranging
over the table.  `order` is the order in which `range images` yields the
entries of the table. -/
def imageList (order : List (String × String)) : List String :=
  (order.foldl imageListStep (List.replicate images.length "", 0)).1

/-- `AssetData`. -/
structure AssetData where
  Images : List String

/-- `Assets`, for a given iteration order of the table. -/
def Assets (order : List (String × String)) : AssetData :=
  ⟨imageList order⟩

/-- `ScorecardImage`: the map index `images["scorecard"]`, the empty string
when the key is absent. -/
def ScorecardImage : String :=
  (images.lookup "scorecard").getD ""

/-- An iteration order of `range images`: the entries of the table, each once,
in any order. -/
def RangeOrder (order : List (String × String)) : Prop :=
  order.Perm images

/-- A hexadecimal character. -/
def isHexDigit (c : Char) : Bool :=
  "0123456789abcdefABCDEF".data.contains c

/-- The form `name@sha256:<digest>`: `name` non-empty and without `@`, the
digest 64 hexadecimal characters. -/
def DigestPinned (ref : String) : Prop :=
  ∃ name digest : List Char,
    ref.data = name ++ "@sha256:".data ++ digest
    ∧ name ≠ [] ∧ '@' ∉ name
    ∧ digest.length = 64 ∧ ∀ c ∈ digest, isHexDigit c = true

/-! ## The three signals, as stated in the specification -/

/-- Some os-release line starts with `ID="rhel"`. -/
def IdSignal (osRelease : List String) : Prop :=
  ∃ line ∈ osRelease, "ID=\"rhel\"".data <+: line.data

/-- Some os-release line starts with `NAME="Red Hat Enterprise Linux"`. -/
def NameSignal (osRelease : List String) : Prop :=
  ∃ line ∈ osRelease, "NAME=\"Red Hat Enterprise Linux\"".data <+: line.data

/-- The label `com.redhat.component` is present and its value has `ubi` as a
substring. -/
def ComponentSignal (labels : Labels) : Prop :=
  ∃ component, mapLookup labels "com.redhat.component" = some component ∧
    "ubi".data <:+: component.data

/-- The value of the flag `hasUbiComponentLabel` of `validate`. -/
def ubiComponentLabel (labels : Labels) : Bool :=
  match mapLookup labels "com.redhat.component" with
  | some component => stringsContains component "ubi"
  | none => false

/-! ## Vocabulary for the statements about `Validate` -/

/-- Both calls made on a layer, `Uncompressed()` and `MediaType()`, succeed. -/
def Layer.Readable (layer : Layer) : Prop :=
  layer.uncompressed.isOk = true ∧ layer.mediaType.isOk = true

/-- The first failing call on the layer fails with `e`: `Uncompressed()`
does, or it succeeds and `MediaType()` fails with `e`. -/
def Layer.FailsWith (layer : Layer) (e : GoError) : Prop :=
  layer.uncompressed = .error e
    ∨ (layer.uncompressed.isOk = true ∧ layer.mediaType = .error e)

/-- The layer enumeration of the image succeeds and so does every call on every
layer. -/
def LayersReadable (imgRef : ImageReference) : Prop :=
  ∃ layers, imgRef.imageInfo.layers = .ok layers ∧ ∀ layer ∈ layers, layer.Readable

/-- The result of `os.ReadFile` on the os-release file of the image. -/
def osReleaseRead (env : Env) (imgRef : ImageReference) : Except GoError String :=
  env.readFile (env.filepathJoin [imgRef.imageFSPath, "etc", "os-release"])

/-! ## Sample inputs -/

/-- The two os-release lines of a RHEL image. -/
def rhelLines : List String :=
  ["ID=\"rhel\"", "NAME=\"Red Hat Enterprise Linux\""]

/-- Labels of a UBI 8 image. -/
def ubiLabels : Labels :=
  [("com.redhat.component", "ubi8-container")]

/-- An error as `os.ReadFile` reports it for a missing file. -/
def errNoFile : GoError :=
  ⟨"open /mnt/etc/os-release: no such file or directory"⟩

/-- An error of a layer stream. -/
def errLayer : GoError :=
  ⟨"unexpected EOF"⟩

/-- An error of a media-type lookup. -/
def errMediaType : GoError :=
  ⟨"unknown media type"⟩

/-- Joining path elements with the separator.  It agrees with `filepath.Join`
on clean, non-empty elements such as `/mnt`, the only ones the sample
environments are used with; it neither cleans the path nor drops empty
elements. -/
def joinSlash (parts : List String) : String :=
  "/".intercalate parts

/-- An environment where `/mnt/etc/os-release` holds the two RHEL lines, each
ended by a newline, and no other file exists. -/
def rhelEnv : Env where
  filepathJoin := joinSlash
  readFile := fun path =>
    if path = "/mnt/etc/os-release" then
      .ok "ID=\"rhel\"\nNAME=\"Red Hat Enterprise Linux\"\n"
    else .error errNoFile

/-- An environment without any file. -/
def emptyEnv : Env where
  filepathJoin := joinSlash
  readFile := fun _ => .error errNoFile

/-- A layer on which both calls succeed. -/
def goodLayer : Layer :=
  ⟨.ok (), .ok "application/vnd.docker.image.rootfs.diff.tar.gzip"⟩

/-- A layer whose stream cannot be opened (its media type could be read). -/
def badStreamLayer : Layer :=
  ⟨.error errLayer, .ok "application/vnd.docker.image.rootfs.diff.tar.gzip"⟩

/-- A layer whose stream opens and whose media type cannot be read. -/
def badTypeLayer : Layer :=
  ⟨.ok (), .error errMediaType⟩

/-- A UBI image extracted under `/mnt`, with the given layers. -/
def ubiRef (layers : List Layer) : ImageReference :=
  ⟨⟨.ok ⟨⟨ubiLabels⟩⟩, .ok layers⟩, "/mnt"⟩

/-! ## Lemmas on the string operations -/

theorem stringsHasPrefix_iff (s pre : String) :
    stringsHasPrefix s pre = true ↔ pre.data <+: s.data := by
  unfold stringsHasPrefix
  exact List.isPrefixOf_iff_prefix

theorem containsAt_iff (sub l : List Char) : containsAt sub l = true ↔ sub <:+: l := by
  induction l with
  | nil =>
    simp only [containsAt, List.isPrefixOf_iff_prefix]
    constructor
    · intro h; exact h.isInfix
    · intro h
      have hs : sub = [] := List.eq_nil_of_infix_nil h
      subst hs; exact List.prefix_rfl
  | cons c cs ih =>
    simp only [containsAt, Bool.or_eq_true, List.isPrefixOf_iff_prefix, ih]
    rw [List.infix_cons_iff]

theorem stringsContains_iff (s substr : String) :
    stringsContains s substr = true ↔ substr.data <:+: s.data := by
  unfold stringsContains
  exact containsAt_iff _ _

/-- A line starting with `ID="rhel"` does not start with
`NAME="Red Hat Enterprise Linux"`: the `else if` of the loop loses nothing. -/
theorem rhelId_excludes_rhelName (value : String)
    (h : stringsHasPrefix value "ID=\"rhel\"" = true) :
    stringsHasPrefix value "NAME=\"Red Hat Enterprise Linux\"" = false := by
  unfold stringsHasPrefix at *
  cases hv : value.data with
  | nil => rw [hv] at h; simp [List.isPrefixOf] at h
  | cons c cs =>
    rw [hv] at h
    have hc : c = 'I' := by
      simp only [String.data, List.isPrefixOf, Bool.and_eq_true, beq_iff_eq] at h
      exact h.1.symm
    subst hc
    simp [List.isPrefixOf]

/-! ## Lemmas on the loop of `validate` -/

theorem scanOsRelease_fst (osRelease : List String) (a b : Bool) :
    (scanOsRelease osRelease (a, b)).1
      = (a || osRelease.any (fun v => stringsHasPrefix v "ID=\"rhel\"")) := by
  induction osRelease generalizing a b with
  | nil => simp [scanOsRelease]
  | cons v rest ih =>
    unfold scanOsRelease
    split_ifs with h1 h2
    · rw [ih]; simp [h1]
    · rw [ih]; simp [h1]
    · rw [ih]; simp [h1]

theorem scanOsRelease_snd (osRelease : List String) (a b : Bool) :
    (scanOsRelease osRelease (a, b)).2
      = (b || osRelease.any
          (fun v => stringsHasPrefix v "NAME=\"Red Hat Enterprise Linux\"")) := by
  induction osRelease generalizing a b with
  | nil => simp [scanOsRelease]
  | cons v rest ih =>
    unfold scanOsRelease
    split_ifs with h1 h2
    · rw [ih]; simp [rhelId_excludes_rhelName v h1]
    · rw [ih]; simp [h2]
    · rw [ih]; simp [h2]

theorem scan_fst_iff (osRelease : List String) :
    (scanOsRelease osRelease (false, false)).1 = true ↔ IdSignal osRelease := by
  rw [scanOsRelease_fst]
  simp [IdSignal, List.any_eq_true, stringsHasPrefix_iff]

theorem scan_snd_iff (osRelease : List String) :
    (scanOsRelease osRelease (false, false)).2 = true ↔ NameSignal osRelease := by
  rw [scanOsRelease_snd]
  simp [NameSignal, List.any_eq_true, stringsHasPrefix_iff]

theorem ubiComponentLabel_iff (labels : Labels) :
    ubiComponentLabel labels = true ↔ ComponentSignal labels := by
  unfold ubiComponentLabel ComponentSignal
  cases h : mapLookup labels "com.redhat.component" with
  | none => simp
  | some c => simp [stringsContains_iff]

theorem validate_eq (labels : Labels) (osRelease : List String) :
    validate labels osRelease
      = ((scanOsRelease osRelease (false, false)).1
          && (scanOsRelease osRelease (false, false)).2
          && ubiComponentLabel labels, none) := by
  unfold validate ubiComponentLabel
  rcases hs : scanOsRelease osRelease (false, false) with ⟨x, y⟩
  simp only
  split_ifs with h
  · simp [h]
  · simp only [Bool.not_eq_true] at h
    simp [h]

theorem validate_fst_iff (labels : Labels) (osRelease : List String) :
    (validate labels osRelease).1 = true
      ↔ IdSignal osRelease ∧ NameSignal osRelease ∧ ComponentSignal labels := by
  rw [validate_eq]
  simp only [Bool.and_eq_true, scan_fst_iff, scan_snd_iff, ubiComponentLabel_iff, and_assoc]

theorem validate_snd (labels : Labels) (osRelease : List String) :
    (validate labels osRelease).2 = none := by
  rw [validate_eq]

/-! ## Properties of `validate` -/

/-- C1: `validate` returns true if and only if all three signals hold: some
line starts with `ID="rhel"`, some line starts with
`NAME="Red Hat Enterprise Linux"`, and the label `com.redhat.component` is
present with a value containing `ubi`.  In particular the labels
`com.redhat.component = ubi8-container` with the two RHEL lines pass. -/
theorem validate_true_iff_three_signals :
    (∀ (labels : Labels) (osRelease : List String),
      (validate labels osRelease).1 = true
        ↔ IdSignal osRelease ∧ NameSignal osRelease ∧ ComponentSignal labels)
    ∧ validate [("com.redhat.component", "ubi8-container")]
        ["ID=\"rhel\"", "NAME=\"Red Hat Enterprise Linux\""] = (true, none) :=
  ⟨validate_fst_iff, by decide⟩

/-- C2: `validate` never returns an error, and whenever one of the three
signals is missing the result is exactly `(false, nil)`: so it is without the
component label, with the os-release of another distribution whatever the
labels, and with a component label that lacks the marker. -/
theorem validate_never_errors :
    (∀ (labels : Labels) (osRelease : List String),
      (validate labels osRelease).2 = none
      ∧ (¬ (IdSignal osRelease ∧ NameSignal osRelease ∧ ComponentSignal labels)
          → validate labels osRelease = (false, none)))
    ∧ validate [] ["ID=\"rhel\"", "NAME=\"Red Hat Enterprise Linux\""] = (false, none)
    ∧ (∀ labels : Labels,
        validate labels ["ID=\"centos\"", "NAME=\"CentOS Linux\""] = (false, none))
    ∧ validate [("com.redhat.component", "rhel8-container")]
        ["ID=\"rhel\"", "NAME=\"Red Hat Enterprise Linux\""] = (false, none) := by
  refine ⟨fun labels osRelease => ⟨validate_snd _ _, fun h => ?_⟩, by decide, ?_, by decide⟩
  · have h1 : (validate labels osRelease).1 = false := by
      rw [← Bool.not_eq_true, validate_fst_iff]; exact h
    exact Prod.ext h1 (validate_snd _ _)
  · intro labels
    rw [validate_eq]
    have : scanOsRelease ["ID=\"centos\"", "NAME=\"CentOS Linux\""] (false, false)
        = (false, false) := by decide
    rw [this]; rfl

/-! ## Lemmas on `Validate` -/

theorem readLayers_readable (layers : List Layer)
    (h : ∀ layer ∈ layers, layer.Readable) : readLayers layers = none := by
  induction layers with
  | nil => rfl
  | cons l rest ih =>
    have hl : l.Readable := h l (List.mem_cons_self _ _)
    have hrest : readLayers rest = none :=
      ih (fun x hx => h x (List.mem_cons_of_mem _ hx))
    obtain ⟨hu, hm⟩ := hl
    unfold readLayers
    cases hu' : l.uncompressed with
    | error e => rw [hu'] at hu; simp [Except.isOk, Except.toBool] at hu
    | ok u =>
      cases hm' : l.mediaType with
      | error e => rw [hm'] at hm; simp [Except.isOk, Except.toBool] at hm
      | ok m => simpa using hrest

theorem readLayers_append_readable (pre rest : List Layer)
    (h : ∀ layer ∈ pre, layer.Readable) :
    readLayers (pre ++ rest) = readLayers rest := by
  induction pre with
  | nil => rfl
  | cons l pre ih =>
    have hl : l.Readable := h l (List.mem_cons_self _ _)
    have hpre : readLayers (pre ++ rest) = readLayers rest :=
      ih (fun x hx => h x (List.mem_cons_of_mem _ hx))
    obtain ⟨hu, hm⟩ := hl
    rw [List.cons_append]
    cases hu' : l.uncompressed with
    | error e => rw [hu'] at hu; simp [Except.isOk, Except.toBool] at hu
    | ok u =>
      cases hm' : l.mediaType with
      | error e => rw [hm'] at hm; simp [Except.isOk, Except.toBool] at hm
      | ok m =>
        simp only [readLayers, hu', hm']
        exact hpre

theorem getLabels_ok (image : Image) (cf : ConfigFile) (h : image.configFile = .ok cf) :
    getLabels image = .ok cf.config.labels := by
  unfold getLabels; rw [h]

/-- When the configuration is read and every layer call succeeds, `Validate`
is decided by the os-release read. -/
theorem Validate_of_readable (env : Env) (imgRef : ImageReference) (labels : Labels)
    (hcfg : getLabels imgRef.imageInfo = .ok labels) (hl : LayersReadable imgRef) :
    Validate env imgRef =
      match getOsReleaseContents env imgRef.imageFSPath with
      | .error err => (false, some err)
      | .ok osRelease => validate labels osRelease := by
  obtain ⟨layers, hlayers, hall⟩ := hl
  unfold Validate
  rw [hcfg]
  simp only [hlayers, readLayers_readable layers hall]

/-! ## Properties of `Validate` -/

/-- C3: when the os-release file of the image cannot be read, `Validate`
returns a non-nil error and never the clean verdict `(false, nil)`; when the
label lookup, the layer enumeration and every layer call succeeded, the error
returned is the error of the file read. -/
theorem Validate_osRelease_unreadable (env : Env) (imgRef : ImageReference)
    (e : GoError) (hread : osReleaseRead env imgRef = .error e) :
    (Validate env imgRef).2 ≠ none
    ∧ Validate env imgRef ≠ (false, none)
    ∧ (∀ cf : ConfigFile, imgRef.imageInfo.configFile = .ok cf →
        LayersReadable imgRef → Validate env imgRef = (false, some e)) := by
  have hos : getOsReleaseContents env imgRef.imageFSPath = .error e := by
    unfold getOsReleaseContents
    unfold osReleaseRead at hread
    rw [hread]
  have hne : (Validate env imgRef).2 ≠ none := by
    unfold Validate
    cases getLabels imgRef.imageInfo with
    | error err => simp
    | ok labels =>
      cases imgRef.imageInfo.layers with
      | error err => simp
      | ok layers =>
        cases h3 : readLayers layers with
        | some err => simp [h3]
        | none => simp [h3, hos]
  refine ⟨hne, ?_, ?_⟩
  · intro h
    apply hne
    rw [h]
  · intro cf hcf hl
    rw [Validate_of_readable env imgRef _ (getLabels_ok _ _ hcf) hl, hos]

/-- A concrete instance of C3: a UBI image with one readable layer, in an
environment without the os-release file. -/
theorem Validate_osRelease_unreadable_witness :
    osReleaseRead emptyEnv (ubiRef [goodLayer]) = .error errNoFile
    ∧ Validate emptyEnv (ubiRef [goodLayer]) = (false, some errNoFile) :=
  ⟨rfl,
    (Validate_osRelease_unreadable emptyEnv (ubiRef [goodLayer]) errNoFile rfl).2.2
      ⟨⟨ubiLabels⟩⟩ rfl
      ⟨[goodLayer], rfl, by simp [Layer.Readable, goodLayer, Except.isOk, Except.toBool]⟩⟩

theorem Layer.failsWith_of_not_readable (layer : Layer) (h : ¬ layer.Readable) :
    ∃ e, layer.FailsWith e := by
  cases hu : layer.uncompressed with
  | error e => exact ⟨e, Or.inl hu⟩
  | ok u =>
    cases hm : layer.mediaType with
    | error e => exact ⟨e, Or.inr ⟨by rw [hu]; rfl, hm⟩⟩
    | ok m =>
      exfalso
      apply h
      constructor
      · rw [hu]; rfl
      · rw [hm]; rfl

/-- A list with a failing layer splits at its first failing layer. -/
theorem exists_first_failing (layers : List Layer) (h : ∃ l ∈ layers, ¬ l.Readable) :
    ∃ pre layer post e, layers = pre ++ layer :: post
      ∧ (∀ l ∈ pre, l.Readable) ∧ layer.FailsWith e := by
  induction layers with
  | nil =>
    obtain ⟨l, hl, _⟩ := h
    exact absurd hl (List.not_mem_nil l)
  | cons x rest ih =>
    by_cases hx : x.Readable
    · have hrest : ∃ l ∈ rest, ¬ l.Readable := by
        obtain ⟨l, hl, hnot⟩ := h
        rcases List.mem_cons.1 hl with heq | hmem
        · subst heq; exact absurd hx hnot
        · exact ⟨l, hmem, hnot⟩
      obtain ⟨pre, layer, post, e, heq, hpre, hfail⟩ := ih hrest
      refine ⟨x :: pre, layer, post, e, by rw [heq, List.cons_append], ?_, hfail⟩
      intro l hl
      rcases List.mem_cons.1 hl with h1 | h1
      · subst h1; exact hx
      · exact hpre l h1
    · obtain ⟨e, he⟩ := x.failsWith_of_not_readable hx
      exact ⟨[], x, rest, e, rfl, fun l hl => absurd hl (List.not_mem_nil l), he⟩

theorem readLayers_first_failing (pre post : List Layer) (layer : Layer) (e : GoError)
    (hpre : ∀ l ∈ pre, l.Readable) (hfail : layer.FailsWith e) :
    readLayers (pre ++ layer :: post) = some e := by
  rw [readLayers_append_readable pre _ hpre]
  unfold readLayers
  rcases hfail with hu | ⟨hu, hm⟩
  · rw [hu]
  · cases hu' : layer.uncompressed with
    | error err => rw [hu'] at hu; simp [Except.isOk, Except.toBool] at hu
    | ok u => simp only [hm]

/-- C4: fail-fast on layers.  When the configuration and the layer
enumeration succeed and some layer call fails, the layer list has a first
failing layer, and `Validate` returns `(false, err)` with `err` the error of
the first failing call in layer order, `Uncompressed` before `MediaType`
within a layer; the os-release read plays no part, the result being the same
in every environment. -/
theorem Validate_layer_fail_fast (imgRef : ImageReference) (cf : ConfigFile)
    (layers : List Layer)
    (hcfg : imgRef.imageInfo.configFile = .ok cf)
    (hlayers : imgRef.imageInfo.layers = .ok layers)
    (hsome : ∃ l ∈ layers, ¬ l.Readable) :
    (∃ pre layer post e, layers = pre ++ layer :: post
      ∧ (∀ l ∈ pre, l.Readable) ∧ layer.FailsWith e)
    ∧ (∀ pre layer post e, layers = pre ++ layer :: post →
        (∀ l ∈ pre, l.Readable) → layer.FailsWith e →
        ∀ env : Env, Validate env imgRef = (false, some e)) := by
  refine ⟨exists_first_failing layers hsome, ?_⟩
  intro pre layer post e heq hpre hfail env
  have hrl : readLayers layers = some e := by
    rw [heq]
    exact readLayers_first_failing pre post layer e hpre hfail
  unfold Validate
  rw [getLabels_ok _ _ hcfg]
  simp only [hlayers, hrl]

/-- A concrete instance of C4: the second layer fails on `MediaType`, the
third on `Uncompressed`; the error returned is the one of the second layer,
with the os-release file present or not. -/
theorem Validate_layer_fail_fast_witness :
    Validate rhelEnv (ubiRef [goodLayer, badTypeLayer, badStreamLayer])
      = (false, some errMediaType)
    ∧ Validate emptyEnv (ubiRef [goodLayer, badTypeLayer, badStreamLayer])
      = (false, some errMediaType) :=
  have h := (Validate_layer_fail_fast (ubiRef [goodLayer, badTypeLayer, badStreamLayer])
    ⟨⟨ubiLabels⟩⟩ [goodLayer, badTypeLayer, badStreamLayer] rfl rfl
    ⟨badTypeLayer, by simp,
      by simp [Layer.Readable, badTypeLayer, Except.isOk, Except.toBool]⟩).2
    [goodLayer] badTypeLayer [badStreamLayer] errMediaType rfl
    (by simp [Layer.Readable, goodLayer, Except.isOk, Except.toBool])
    (Or.inr ⟨rfl, rfl⟩)
  ⟨h rhelEnv, h emptyEnv⟩

/-- C5, as stated, fails: two references with the same labels and the same
os-release file, one with a readable layer and one with a layer whose stream
cannot be opened, get different outcomes (Pass and Error). -/
theorem Validate_layer_failure_changes_outcome :
    getLabels (ubiRef [goodLayer]).imageInfo = getLabels (ubiRef [badStreamLayer]).imageInfo
    ∧ osReleaseRead rhelEnv (ubiRef [goodLayer])
        = osReleaseRead rhelEnv (ubiRef [badStreamLayer])
    ∧ Validate rhelEnv (ubiRef [goodLayer]) = (true, none)
    ∧ Validate rhelEnv (ubiRef [badStreamLayer]) = (false, some errLayer) :=
  ⟨rfl, rfl, by decide, by decide⟩

/-- C5, amended: two references that agree on the result of the label lookup
and on the result of the os-release read get the same outcome from `Validate`,
however their layer lists differ, provided that the label lookup fails or that
in both the layer enumeration and every layer call succeed. -/
theorem Validate_readable_layers_irrelevant (env : Env) (r₁ r₂ : ImageReference)
    (hcfg : getLabels r₁.imageInfo = getLabels r₂.imageInfo)
    (hos : osReleaseRead env r₁ = osReleaseRead env r₂)
    (hl : (∃ e, getLabels r₁.imageInfo = .error e)
      ∨ (LayersReadable r₁ ∧ LayersReadable r₂)) :
    Validate env r₁ = Validate env r₂ := by
  rcases hl with ⟨e, he⟩ | ⟨h₁, h₂⟩
  · have he₂ : getLabels r₂.imageInfo = .error e := by rw [← hcfg, he]
    unfold Validate
    rw [he, he₂]
  · have hos' : getOsReleaseContents env r₁.imageFSPath
        = getOsReleaseContents env r₂.imageFSPath := by
      unfold osReleaseRead at hos
      unfold getOsReleaseContents
      rw [hos]
    cases hg : getLabels r₁.imageInfo with
    | error e =>
      have he₂ : getLabels r₂.imageInfo = .error e := by rw [← hcfg, hg]
      unfold Validate
      rw [hg, he₂]
    | ok labels =>
      have hg₂ : getLabels r₂.imageInfo = .ok labels := by rw [← hcfg, hg]
      rw [Validate_of_readable env r₁ labels hg h₁,
        Validate_of_readable env r₂ labels hg₂ h₂, hos']

/-- A concrete instance of the amended C5: no layer against three readable
layers. -/
theorem Validate_readable_layers_irrelevant_witness :
    Validate rhelEnv (ubiRef []) = Validate rhelEnv (ubiRef [goodLayer, goodLayer, goodLayer]) :=
  Validate_readable_layers_irrelevant rhelEnv (ubiRef [])
    (ubiRef [goodLayer, goodLayer, goodLayer]) rfl rfl
    (Or.inr ⟨⟨[], rfl, by simp⟩,
      ⟨[goodLayer, goodLayer, goodLayer], rfl,
        by simp [Layer.Readable, goodLayer, Except.isOk, Except.toBool]⟩⟩)

/-- C9: the doc comment of `BasedOnUBICheck` decides by the contents of
`/etc/os-release` alone, the ID being `rhel` and the Name value
`Red Hat Enterprise Linux`.  The code departs from it: on the two RHEL lines,
where some line begins with `ID="rhel"` and some line begins with
`NAME="Red Hat Enterprise Linux"`, and an empty label map, `validate` returns
`(false, nil)`. -/
theorem validate_needs_component_label :
    IdSignal rhelLines ∧ NameSignal rhelLines ∧ validate [] rhelLines = (false, none) :=
  ⟨⟨"ID=\"rhel\"", by simp [rhelLines], List.prefix_rfl⟩,
    ⟨"NAME=\"Red Hat Enterprise Linux\"", by simp [rhelLines], List.prefix_rfl⟩,
    by decide⟩

/-! ## Lemmas on the line split -/

theorem splitNewline_ne_nil (l : List Char) : splitNewline l ≠ [] := by
  cases l with
  | nil => simp [splitNewline]
  | cons c cs =>
    unfold splitNewline
    split_ifs
    · simp
    · split <;> simp

/-- Joining the pieces with newlines gives the input back: the split drops the
separators and nothing else. -/
theorem intercalate_splitNewline (l : List Char) :
    List.intercalate ['\n'] (splitNewline l) = l := by
  induction l with
  | nil => rfl
  | cons c cs ih =>
    cases hs : splitNewline cs with
    | nil => exact absurd hs (splitNewline_ne_nil cs)
    | cons p ps =>
      rw [hs] at ih
      by_cases hc : c = '\n'
      · subst hc
        have : splitNewline ('\n' :: cs) = [] :: p :: ps := by
          simp [splitNewline, hs]
        rw [this]
        simp only [List.intercalate, List.intersperse, List.flatten, List.nil_append,
          List.singleton_append] at ih ⊢
        rw [ih]
      · have : splitNewline (c :: cs) = (c :: p) :: ps := by
          simp [splitNewline, hs, hc]
        rw [this]
        cases ps with
        | nil =>
          simp only [List.intercalate, List.intersperse, List.flatten,
            List.append_nil] at ih ⊢
          rw [ih]
        | cons q qs =>
          simp only [List.intercalate, List.intersperse, List.flatten,
            List.cons_append] at ih ⊢
          rw [ih]

/-- No piece of the split contains a newline. -/
theorem splitNewline_no_newline (l : List Char) :
    ∀ piece ∈ splitNewline l, '\n' ∉ piece := by
  induction l with
  | nil => simp [splitNewline]
  | cons c cs ih =>
    cases hs : splitNewline cs with
    | nil => exact absurd hs (splitNewline_ne_nil cs)
    | cons p ps =>
      rw [hs] at ih
      by_cases hc : c = '\n'
      · have : splitNewline (c :: cs) = [] :: p :: ps := by
          simp [splitNewline, hs, hc]
        rw [this]
        intro piece hp
        rcases List.mem_cons.1 hp with h | h
        · subst h; simp
        · exact ih piece h
      · have : splitNewline (c :: cs) = (c :: p) :: ps := by
          simp [splitNewline, hs, hc]
        rw [this]
        intro piece hp
        rcases List.mem_cons.1 hp with h | h
        · subst h
          have hp' := ih p (List.mem_cons_self _ _)
          intro hmem
          rcases List.mem_cons.1 hmem with h' | h'
          · exact hc h'.symm
          · exact hp' h'
        · exact ih piece (List.mem_cons_of_mem _ h)

/-- A newline at the end of the input yields a last, empty piece. -/
theorem splitNewline_append_newline (l : List Char) :
    splitNewline (l ++ ['\n']) = splitNewline l ++ [[]] := by
  induction l with
  | nil => simp [splitNewline]
  | cons c cs ih =>
    rw [List.cons_append]
    by_cases hc : c = '\n'
    · simp [splitNewline, hc, ih]
    · cases hs : splitNewline cs with
      | nil => exact absurd hs (splitNewline_ne_nil cs)
      | cons p ps => simp [splitNewline, hc, ih, hs]

/-- C10: when `ConfigFile()`, `Layers()`, every layer call and the read of the
os-release file all succeed, `Validate` returns `validate labels lines`, with
`labels` the labels of the configuration and `lines` the file content split at
the newline character: joining the lines with newlines gives the content back
(nothing is trimmed), no line contains a newline, and a content ending in a
newline has a final empty line. -/
theorem Validate_eq_validate_of_reads_ok (env : Env) (imgRef : ImageReference)
    (cf : ConfigFile) (content : String)
    (hcfg : imgRef.imageInfo.configFile = .ok cf)
    (hlayers : LayersReadable imgRef)
    (hread : osReleaseRead env imgRef = .ok content) :
    Validate env imgRef = validate cf.config.labels (stringsSplitNewline content)
    ∧ List.intercalate ['\n'] ((stringsSplitNewline content).map String.data) = content.data
    ∧ (∀ line ∈ stringsSplitNewline content, '\n' ∉ line.data)
    ∧ stringsSplitNewline (content ++ "\n") = stringsSplitNewline content ++ [""] := by
  have hmap : (stringsSplitNewline content).map String.data = splitNewline content.data := by
    unfold stringsSplitNewline
    rw [List.map_map]
    exact List.map_id _
  refine ⟨?_, ?_, ?_, ?_⟩
  · rw [Validate_of_readable env imgRef _ (getLabels_ok _ _ hcfg) hlayers]
    unfold osReleaseRead at hread
    unfold getOsReleaseContents
    rw [hread]
  · rw [hmap]
    exact intercalate_splitNewline _
  · intro line hline
    apply splitNewline_no_newline content.data line.data
    rw [← hmap]
    exact List.mem_map_of_mem _ hline
  · unfold stringsSplitNewline
    have : (content ++ "\n").data = content.data ++ ['\n'] := rfl
    rw [this, splitNewline_append_newline, List.map_append]
    rfl

/-- A concrete instance of C10: the os-release file of `rhelEnv` ends in a
newline, so `validate` receives the two RHEL lines and a final empty line. -/
theorem Validate_eq_validate_of_reads_ok_witness :
    Validate rhelEnv (ubiRef [goodLayer])
      = validate ubiLabels ["ID=\"rhel\"", "NAME=\"Red Hat Enterprise Linux\"", ""] :=
  (Validate_eq_validate_of_reads_ok rhelEnv (ubiRef [goodLayer]) ⟨⟨ubiLabels⟩⟩
    "ID=\"rhel\"\nNAME=\"Red Hat Enterprise Linux\"\n" rfl
    ⟨[goodLayer], rfl, by simp [Layer.Readable, goodLayer, Except.isOk, Except.toBool]⟩
    rfl).1.trans (by decide)

/-! ## Properties of the asset table -/

theorem rangeOrder_eq (order : List (String × String)) (h : RangeOrder order) :
    order = images :=
  List.perm_singleton.1 h

theorem imageList_images :
    imageList images =
      ["quay.io/operator-framework/scorecard-test@sha256:d655333b0246f75ac9e5f6e67a2c04c506ae77b0c8b0c5eb70e6ddc8c2123e55"] := by
  decide

theorem scorecard_digestPinned :
    DigestPinned
      "quay.io/operator-framework/scorecard-test@sha256:d655333b0246f75ac9e5f6e67a2c04c506ae77b0c8b0c5eb70e6ddc8c2123e55" :=
  ⟨"quay.io/operator-framework/scorecard-test".data,
    "d655333b0246f75ac9e5f6e67a2c04c506ae77b0c8b0c5eb70e6ddc8c2123e55".data,
    by decide, by decide, by decide, by decide, by decide⟩

/-- C6: `Assets().Images` is complete and free of duplicates with respect to
the table `images`, whatever the iteration order: it has as many elements as
the table has entries, every reference stored in the table occurs in it, every
element of it is a value of the table, and no element occurs twice. -/
theorem Assets_images_complete_nodup (order : List (String × String))
    (h : RangeOrder order) :
    (Assets order).Images.length = images.length
    ∧ (∀ entry ∈ images, entry.2 ∈ (Assets order).Images)
    ∧ (∀ ref ∈ (Assets order).Images, ∃ entry ∈ images, entry.2 = ref)
    ∧ (Assets order).Images.Nodup := by
  rw [rangeOrder_eq order h]
  simp only [Assets, imageList_images]
  refine ⟨rfl, ?_, ?_, List.nodup_singleton _⟩
  · intro entry he
    simp only [images, List.mem_singleton] at he
    subst he
    exact List.mem_singleton_self _
  · intro ref hr
    rw [List.mem_singleton] at hr
    subst hr
    exact ⟨_, List.mem_singleton_self _, rfl⟩

/-- A concrete instance of C6: the table in the order it is written. -/
theorem Assets_images_complete_nodup_witness :
    RangeOrder images ∧ (Assets images).Images.length = 1 ∧ (Assets images).Images.Nodup :=
  have h := Assets_images_complete_nodup images (List.Perm.refl _)
  ⟨List.Perm.refl _, h.1, h.2.2.2⟩

/-- C7: every element of `Assets().Images`, whatever the iteration order, and
every value of the table `images` has the form `name@sha256:<digest>` with
`name` non-empty and without `@` and a digest of exactly 64 hexadecimal
characters; no entry is a reference by tag only. -/
theorem images_digest_pinned :
    (∀ order, RangeOrder order → ∀ ref ∈ (Assets order).Images, DigestPinned ref)
    ∧ (∀ entry ∈ images, DigestPinned entry.2) := by
  constructor
  · intro order h ref hr
    rw [rangeOrder_eq order h] at hr
    simp only [Assets, imageList_images, List.mem_singleton] at hr
    subst hr
    exact scorecard_digestPinned
  · intro entry he
    simp only [images, List.mem_singleton] at he
    subst he
    exact scorecard_digestPinned

/-- C8: `ScorecardImage()` returns the entry stored in the table under the
key `scorecard`, which is the scorecard-test reference pinned by digest; it is
not empty, and it is an element of `Assets().Images` whatever the iteration
order. -/
theorem ScorecardImage_spec :
    images.lookup "scorecard" = some ScorecardImage
    ∧ ScorecardImage =
        "quay.io/operator-framework/scorecard-test@sha256:d655333b0246f75ac9e5f6e67a2c04c506ae77b0c8b0c5eb70e6ddc8c2123e55"
    ∧ ScorecardImage ≠ ""
    ∧ (∀ order, RangeOrder order → ScorecardImage ∈ (Assets order).Images) := by
  refine ⟨by decide, by decide, by decide, ?_⟩
  intro order h
  rw [rangeOrder_eq order h]
  simp only [Assets, imageList_images]
  have : ScorecardImage =
      "quay.io/operator-framework/scorecard-test@sha256:d655333b0246f75ac9e5f6e67a2c04c506ae77b0c8b0c5eb70e6ddc8c2123e55" := by
    decide
  rw [this]
  exact List.mem_singleton_self _

/-! ## Further concrete instances -/

/-- A concrete instance of C2: a RHEL os-release with the component label of
another product has no component signal, and the result is `(false, nil)`. -/
theorem validate_never_errors_witness :
    ¬ (IdSignal rhelLines ∧ NameSignal rhelLines
        ∧ ComponentSignal [("com.redhat.component", "rhel8-container")])
    ∧ validate [("com.redhat.component", "rhel8-container")] rhelLines = (false, none) :=
  have hno : ¬ (IdSignal rhelLines ∧ NameSignal rhelLines
      ∧ ComponentSignal [("com.redhat.component", "rhel8-container")]) := by
    rintro ⟨_, _, hc⟩
    have hb := (ubiComponentLabel_iff _).2 hc
    revert hb
    decide
  ⟨hno, (validate_never_errors.1 _ rhelLines).2 hno⟩

/-- A concrete instance of C7: the reference returned by `ScorecardImage` is
pinned by digest. -/
theorem images_digest_pinned_witness : DigestPinned ScorecardImage :=
  images_digest_pinned.1 images (List.Perm.refl _) ScorecardImage (by decide)

/-- A concrete instance of C8: the table in the order it is written. -/
theorem ScorecardImage_spec_witness : ScorecardImage ∈ (Assets images).Images :=
  ScorecardImage_spec.2.2.2 images (List.Perm.refl _)

/-! ## Order and growth of the os-release lines -/

/-- The pair of flags after the loop, for a list of at most one line, never
has both flags set. -/
theorem scanOsRelease_short (osRelease : List String) (h : osRelease.length < 2) :
    ((scanOsRelease osRelease (false, false)).1
      && (scanOsRelease osRelease (false, false)).2) = false := by
  match osRelease, h with
  | [], _ => rfl
  | [value], _ =>
    simp only [scanOsRelease]
    split_ifs <;> rfl
  | _ :: _ :: rest, h =>
    simp only [List.length_cons] at h
    omega

theorem idSignal_of_subset (l₁ l₂ : List String) (hsub : l₁ ⊆ l₂) (h : IdSignal l₁) :
    IdSignal l₂ := by
  obtain ⟨line, hmem, hpre⟩ := h
  exact ⟨line, hsub hmem, hpre⟩

theorem nameSignal_of_subset (l₁ l₂ : List String) (hsub : l₁ ⊆ l₂) (h : NameSignal l₁) :
    NameSignal l₂ := by
  obtain ⟨line, hmem, hpre⟩ := h
  exact ⟨line, hsub hmem, hpre⟩

/-- The result of `validate` is fixed by its first component. -/
theorem validate_ext (labels₁ labels₂ : Labels) (l₁ l₂ : List String)
    (h : (validate labels₁ l₁).1 = true ↔ (validate labels₂ l₂).1 = true) :
    validate labels₁ l₁ = validate labels₂ l₂ := by
  apply Prod.ext
  · exact Bool.eq_iff_iff.2 h
  · rw [validate_snd, validate_snd]

/-- C11: one os-release line supplies at most one of the two signals (no line
starts both with `ID="rhel"` and with `NAME="Red Hat Enterprise Linux"`), so
on every list of fewer than two lines `validate` returns `(false, nil)`,
whatever the labels. -/
theorem validate_fewer_than_two_lines (labels : Labels) (osRelease : List String)
    (h : osRelease.length < 2) :
    validate labels osRelease = (false, none)
    ∧ ∀ line : String,
        ¬ ("ID=\"rhel\"".data <+: line.data
            ∧ "NAME=\"Red Hat Enterprise Linux\"".data <+: line.data) := by
  constructor
  · rw [validate_eq, scanOsRelease_short osRelease h]
    rfl
  · rintro line ⟨hid, hname⟩
    have h1 := rhelId_excludes_rhelName line ((stringsHasPrefix_iff _ _).2 hid)
    have h2 := (stringsHasPrefix_iff _ _).2 hname
    rw [h1] at h2
    exact Bool.false_ne_true h2

/-- A concrete instance of C11: the line `ID="rhel"` alone fails, even with
the label of a UBI image. -/
theorem validate_fewer_than_two_lines_witness :
    ["ID=\"rhel\""].length < 2 ∧ validate ubiLabels ["ID=\"rhel\""] = (false, none) :=
  ⟨by decide, (validate_fewer_than_two_lines ubiLabels ["ID=\"rhel\""] (by decide)).1⟩

/-- C12: the result of `validate` does not depend on the order of the
os-release lines: on two lists that are permutations of each other it is the
same, for every label map. -/
theorem validate_perm (labels : Labels) (l₁ l₂ : List String) (h : l₁.Perm l₂) :
    validate labels l₁ = validate labels l₂ := by
  apply validate_ext
  rw [validate_fst_iff, validate_fst_iff]
  constructor
  · rintro ⟨hid, hname, hc⟩
    exact ⟨idSignal_of_subset l₁ l₂ h.subset hid,
      nameSignal_of_subset l₁ l₂ h.subset hname, hc⟩
  · rintro ⟨hid, hname, hc⟩
    exact ⟨idSignal_of_subset l₂ l₁ h.symm.subset hid,
      nameSignal_of_subset l₂ l₁ h.symm.subset hname, hc⟩

/-- A concrete instance of C12: the two RHEL lines and a line of another
field, in two orders, both pass. -/
theorem validate_perm_witness :
    validate ubiLabels ["ID=\"rhel\"", "NAME=\"Red Hat Enterprise Linux\"", "VERSION=\"8.4\""]
        = validate ubiLabels
            ["VERSION=\"8.4\"", "NAME=\"Red Hat Enterprise Linux\"", "ID=\"rhel\""]
    ∧ validate ubiLabels
        ["VERSION=\"8.4\"", "NAME=\"Red Hat Enterprise Linux\"", "ID=\"rhel\""]
        = (true, none) :=
  ⟨validate_perm ubiLabels _ _
      ((List.Perm.swap _ _ _).trans
        (((List.Perm.swap _ _ _).cons _).trans (List.Perm.swap _ _ _))),
    by decide⟩

/-- C13: the result of `validate` is monotone in the os-release lines: when
it is true on a list, it is true on every list obtained by inserting further
lines anywhere (every list that has the first as a sublist), among them
duplicated lines and lines naming another distribution. -/
theorem validate_mono (labels : Labels) (l₁ l₂ : List String)
    (hsub : l₁.Sublist l₂) (h : (validate labels l₁).1 = true) :
    validate labels l₂ = (true, none) := by
  have h3 := (validate_fst_iff labels l₁).1 h
  have h2 : (validate labels l₂).1 = true :=
    (validate_fst_iff labels l₂).2
      ⟨idSignal_of_subset l₁ l₂ hsub.subset h3.1,
        nameSignal_of_subset l₁ l₂ hsub.subset h3.2.1, h3.2.2⟩
  exact Prod.ext h2 (validate_snd _ _)

/-- A concrete instance of C13: the two RHEL lines, with lines of CentOS put
before, between and after them and the `ID` line repeated. -/
theorem validate_mono_witness :
    (validate ubiLabels rhelLines).1 = true
    ∧ validate ubiLabels
        ["ID=\"centos\"", "ID=\"rhel\"", "", "NAME=\"Red Hat Enterprise Linux\"",
          "NAME=\"CentOS Linux\"", "ID=\"rhel\""] = (true, none) :=
  ⟨by decide,
    validate_mono ubiLabels rhelLines
      ["ID=\"centos\"", "ID=\"rhel\"", "", "NAME=\"Red Hat Enterprise Linux\"",
        "NAME=\"CentOS Linux\"", "ID=\"rhel\""]
      (.cons _ (.cons₂ _ (.cons _ (.cons₂ _ (.cons _ (.cons _ .slnil))))))
      (by decide)⟩

end Preflight
